import Mathlib

/-!
Verification of the virtual-hardware-board simulator core.

Shallow embedding of the Python sources:
  * `simulator/core/register.py`      (SimpleRegister, ReadOnlyRegister, WriteOnlyRegister, RegisterFile)
  * `simulator/stm32/gpio.py`         (STM32 GPIO: IDR / ODR / BSRR)
  * `simulator/tm4c/gpio.py`          (TM4C123 GPIO: masked DATA window, ICR, simple registers)
  * `simulator/core/address_space.py` (AddressRange, FlashMemory, RamMemory, BitBandRegion)
  * `simulator/core/memmap.py`        (AddressSpace dispatch, bit-band RMW, register_peripheral)
  * `simulator/debug/session.py`      (DebugSession.step / run / write_memory)

Machine integers are modelled as `Nat` with explicit masking, matching
Python's arbitrary-precision non-negative ints at every point where the
source masks.  Python's `x & ~y` on non-negative ints (the bits of `x`
that are not in `y`) is embedded as `pyAndNot x y = x ^^^ (x &&& y)`,
which keeps every definition kernel-computable.
-/

/-- Python `x & ~y` for non-negative `x`, `y`: the bits of `x` not set in `y`.
Since `x &&& y` is bitwise contained in `x`, xor-ing it away clears exactly
those bits. -/
def pyAndNot (x y : Nat) : Nat := x ^^^ (x &&& y)

/-- Python error kinds raised by the embedded code. -/
inductive MemErr where
  | accessError
  | alignmentError
  | boundsError
  | valueError
  | attributeError
  deriving DecidableEq, Repr

/-! ### Register layer (`simulator/core/register.py`) -/

/-- Access-size mask `(1 << (access_size * 8)) - 1` used by `SimpleRegister`. -/
def sizeMask (accessSize : Nat) : Nat := (1 <<< (accessSize * 8)) - 1

/-- `SimpleRegister.read`: `self.value & mask`. -/
def simpleRegisterRead (value accessSize : Nat) : Nat := value &&& sizeMask accessSize

/-- `SimpleRegister.write`: `self.value = (self.value & ~mask) | (val & mask)`. -/
def simpleRegisterWrite (value accessSize val : Nat) : Nat :=
  pyAndNot value (sizeMask accessSize) ||| (val &&& sizeMask accessSize)

/-- `WriteOnlyRegister.read`: `return self.reset_value` (note: no masking in the source). -/
def writeOnlyRegisterRead (resetValue : Nat) (_accessSize : Nat) : Nat := resetValue

/-- `RegisterFile._validate_size`: access size must be 1, 2 or 4 bytes. -/
def validSize (size : Nat) : Bool := size == 1 || size == 2 || size == 4

/-! ### STM32 GPIO (`simulator/stm32/gpio.py`) -/

namespace Stm32

/-- `GPIO_DATA_MASK_16BIT` from `simulator/stm32/consts.py`. -/
def GPIO_DATA_MASK_16BIT : Nat := 0xFFFF

/-- Register offsets from the board configuration (`Stm32GpioOffsets`). -/
structure Offsets where
  idr : Nat
  odr : Nat
  bsrr : Nat
  deriving DecidableEq, Repr

/-- Mutable state of one STM32 GPIO port: the ODR storage plus the IDR
external-input shadow (`None` means "follow ODR"). -/
structure State where
  odr : Nat
  externalInputs : Option Nat
  deriving DecidableEq, Repr

/-- `STM32InputDataRegister.read`: external shadow (masked to 16 bits, not to
the access size) when set, otherwise `self.odr.read(size)`. -/
def idrRead (s : State) (size : Nat) : Nat :=
  match s.externalInputs with
  | some v => v &&& GPIO_DATA_MASK_16BIT
  | none => simpleRegisterRead s.odr size

/-- `STM32BitSetResetRegister.write`: split the word into set/reset halves and
update ODR as `((odr | set) & ~reset) & 0xFFFF` in one operation. -/
def bsrrWrite (s : State) (size val : Nat) : Except MemErr State :=
  if size ≠ 4 then .error .valueError
  else
    let set_mask := val &&& GPIO_DATA_MASK_16BIT
    let reset_mask := (val >>> 16) &&& GPIO_DATA_MASK_16BIT
    let current := simpleRegisterRead s.odr 4
    let current := current ||| set_mask
    let current := pyAndNot current reset_mask
    .ok { s with odr := simpleRegisterWrite s.odr 4 (current &&& GPIO_DATA_MASK_16BIT) }

/-- `RegisterFile.read` dispatch for the three registers added in
`STM32GPIO.__init__` (unknown offsets read as the default reset 0). -/
def regFileRead (cfg : Offsets) (s : State) (offset size : Nat) : Except MemErr Nat :=
  if ¬ validSize size then .error .valueError
  else if offset = cfg.odr then .ok (simpleRegisterRead s.odr size)
  else if offset = cfg.idr then .ok (idrRead s size)
  else if offset = cfg.bsrr then .ok (writeOnlyRegisterRead 0 size)
  else .ok (0 &&& sizeMask size)

/-- `RegisterFile.write` dispatch: ODR is simple storage, IDR is read-only
(writes ignored), BSRR has the set/reset side effect, unknown offsets are
silently dropped. -/
def regFileWrite (cfg : Offsets) (s : State) (offset size val : Nat) : Except MemErr State :=
  if ¬ validSize size then .error .valueError
  else if offset = cfg.odr then .ok { s with odr := simpleRegisterWrite s.odr size val }
  else if offset = cfg.idr then .ok s
  else if offset = cfg.bsrr then bsrrWrite s size val
  else .ok s

/-- `STM32GPIO.read`. -/
def gpioRead (cfg : Offsets) (s : State) (offset size : Nat) : Except MemErr Nat :=
  regFileRead cfg s offset size

/-- `STM32GPIO.write`: BSRR receives the full 32-bit value, every other
register is masked to the 16-bit port width first. -/
def gpioWrite (cfg : Offsets) (s : State) (offset size value : Nat) : Except MemErr State :=
  if offset = cfg.bsrr then regFileWrite cfg s offset size value
  else regFileWrite cfg s offset size (value &&& GPIO_DATA_MASK_16BIT)

end Stm32

/-! ### TM4C123 GPIO (`simulator/tm4c/gpio.py`) -/

namespace Tm4c

/-- Register offsets from the board configuration (`Tm4cGpioOffsets`). -/
structure Offsets where
  data : Nat
  dir : Nat
  den : Nat
  is_ : Nat
  ibe : Nat
  iev : Nat
  im : Nat
  ris : Nat
  mis : Nat
  icr : Nat
  afsel : Nat
  deriving DecidableEq, Repr

/-- The canonical TM4C123 register layout (`simulator/tm4c/consts.py` and
spec section 6): masked DATA window at 0x000, control registers above it. -/
def canonOffsets : Offsets :=
  { data := 0x000, dir := 0x400, den := 0x51C, is_ := 0x404, ibe := 0x408,
    iev := 0x40C, im := 0x410, ris := 0x414, mis := 0x418, icr := 0x41C,
    afsel := 0x420 }

/-- Mutable state of one TM4C GPIO port: the values of the registers created
in `TM4C123GPIO.__init__`. -/
structure State where
  data : Nat
  ris : Nat
  dir : Nat
  den : Nat
  afsel : Nat
  is_ : Nat
  ibe : Nat
  iev : Nat
  im : Nat
  deriving DecidableEq, Repr

/-- `TM4CMaskedDataRegister.write_masked`: the address encodes the pin mask
`(diff >> 2) & data_mask`; only masked bits are updated. `diff` is computed
as a Python int difference, hence `Int`. -/
def writeMasked (dataMask dataVal : Nat) (address offset : Nat) (value : Nat) :
    Except MemErr Nat :=
  let diff : Int := (address : Int) - (offset : Int)
  if diff ≤ 0 ∨ diff > 0x3FC then .error .valueError
  else
    let mask := (diff.toNat >>> 2) &&& dataMask
    let current := dataVal &&& dataMask
    .ok (pyAndNot current mask ||| (value &&& mask))

/-- `TM4CMaskedDataRegister.read_masked`. -/
def readMasked (dataMask dataVal : Nat) (address offset : Nat) : Nat :=
  let diff : Int := (address : Int) - (offset : Int)
  if diff < 0 ∨ diff > 0x3FC then 0
  else if diff = 0 then dataVal &&& dataMask
  else dataVal &&& ((diff.toNat >>> 2) &&& dataMask)

/-- `RegisterFile.write` dispatch for the registers added in
`TM4C123GPIO.__init__`: DATA/DIR/DEN/AFSEL/IS/IBE/IEV/IM are simple storage,
RIS is read-only (writes ignored), ICR clears RIS bits (`ris &= ~val`,
value not masked to the access size), unknown offsets are dropped. -/
def regFileWrite (cfg : Offsets) (s : State) (offset size val : Nat) :
    Except MemErr State :=
  if ¬ validSize size then .error .valueError
  else if offset = cfg.data then .ok { s with data := simpleRegisterWrite s.data size val }
  else if offset = cfg.ris then .ok s
  else if offset = cfg.icr then .ok { s with ris := pyAndNot s.ris val }
  else if offset = cfg.dir then .ok { s with dir := simpleRegisterWrite s.dir size val }
  else if offset = cfg.den then .ok { s with den := simpleRegisterWrite s.den size val }
  else if offset = cfg.afsel then .ok { s with afsel := simpleRegisterWrite s.afsel size val }
  else if offset = cfg.is_ then .ok { s with is_ := simpleRegisterWrite s.is_ size val }
  else if offset = cfg.ibe then .ok { s with ibe := simpleRegisterWrite s.ibe size val }
  else if offset = cfg.iev then .ok { s with iev := simpleRegisterWrite s.iev size val }
  else if offset = cfg.im then .ok { s with im := simpleRegisterWrite s.im size val }
  else .ok s

/-- `RegisterFile.read` dispatch (ICR is write-only: reads return the reset
value 0; unknown offsets read the default reset 0 masked). -/
def regFileRead (cfg : Offsets) (s : State) (offset size : Nat) : Except MemErr Nat :=
  if ¬ validSize size then .error .valueError
  else if offset = cfg.data then .ok (simpleRegisterRead s.data size)
  else if offset = cfg.ris then .ok (simpleRegisterRead s.ris size)
  else if offset = cfg.icr then .ok (writeOnlyRegisterRead 0 size)
  else if offset = cfg.dir then .ok (simpleRegisterRead s.dir size)
  else if offset = cfg.den then .ok (simpleRegisterRead s.den size)
  else if offset = cfg.afsel then .ok (simpleRegisterRead s.afsel size)
  else if offset = cfg.is_ then .ok (simpleRegisterRead s.is_ size)
  else if offset = cfg.ibe then .ok (simpleRegisterRead s.ibe size)
  else if offset = cfg.iev then .ok (simpleRegisterRead s.iev size)
  else if offset = cfg.im then .ok (simpleRegisterRead s.im size)
  else .ok (0 &&& sizeMask size)

/-- `TM4C123GPIO.write`: masked DATA window writes must be 32-bit; direct
DATA (diff = 0) and all control registers other than ICR mask the incoming
value with the port data mask; ICR receives the raw value. -/
def gpioWrite (cfg : Offsets) (dataMask : Nat) (s : State) (offset size value : Nat) :
    Except MemErr State :=
  let diff : Int := (offset : Int) - (cfg.data : Int)
  if 0 < diff ∧ diff ≤ 0x3FC then
    if size ≠ 4 then .error .valueError
    else
      match writeMasked dataMask s.data offset cfg.data value with
      | .error e => .error e
      | .ok d => .ok { s with data := d }
  else if diff = 0 then regFileWrite cfg s offset size (value &&& dataMask)
  else if offset = cfg.icr then regFileWrite cfg s offset size value
  else regFileWrite cfg s offset size (value &&& dataMask)

/-- `TM4C123GPIO.read`: the whole window `0 ≤ diff ≤ 0x3FC` is served by
`read_masked` (with no size validation); MIS is computed as `RIS & IM`. -/
def gpioRead (cfg : Offsets) (dataMask : Nat) (s : State) (offset size : Nat) :
    Except MemErr Nat :=
  let diff : Int := (offset : Int) - (cfg.data : Int)
  if 0 ≤ diff ∧ diff ≤ 0x3FC then .ok (readMasked dataMask s.data offset cfg.data)
  else if offset = cfg.mis then
    match regFileRead cfg s cfg.ris 4, regFileRead cfg s cfg.im 4 with
    | .ok ris, .ok im => .ok (ris &&& im)
    | .error e, _ => .error e
    | _, .error e => .error e
  else regFileRead cfg s offset size

end Tm4c

/-! ### Memory regions (`simulator/core/address_space.py`) -/

namespace Mem

/-- `AddressRange`: immutable `(base, size)` pair. -/
structure AddressRange where
  base : Nat
  size : Nat
  deriving DecidableEq, Repr

/-- `AddressRange.contains`: `base <= address < base + size`. -/
def AddressRange.containsA (r : AddressRange) (address : Nat) : Bool :=
  r.base ≤ address && address < r.base + r.size

/-- `AddressRange.contains_range`: containment of `[address, address + size)`. -/
def AddressRange.containsRange (r : AddressRange) (address size : Nat) : Bool :=
  r.containsA address && address + size ≤ r.base + r.size

/-- Little-endian decoding of `k` bytes starting at `off` in a byte store,
matching Python `int.from_bytes(data[off:off+k], "little")`. -/
def leDecode (m : Nat → Nat) (off : Nat) : Nat → Nat
  | 0 => 0
  | k + 1 => m off + 256 * leDecode m (off + 1) k

/-- Byte-store update matching Python
`data[off:off+size] = (value & mask).to_bytes(size, "little")`
(the caller masks; each stored byte is `(v >> (8*i)) & 255`). -/
def storeBytes (m : Nat → Nat) (off size v : Nat) : Nat → Nat :=
  fun x => if off ≤ x ∧ x < off + size then (v >>> (8 * (x - off))) &&& 255 else m x

/-- `FlashMemory`: an address range plus a byte buffer, indexed by offset. -/
structure Flash where
  range : AddressRange
  data : Nat → Nat

/-- `FlashMemory.load_image`: one-shot image load starting at offset 0;
fails when the image exceeds the flash buffer. -/
def flashLoadImage (f : Flash) (img : List Nat) : Except MemErr Flash :=
  if img.length > f.range.size then .error .valueError
  else .ok { f with data := fun i => if i < img.length then img.getD i 0 else f.data i }

/-- `FlashMemory.read`: bounds check then little-endian decode. -/
def flashRead (f : Flash) (address size : Nat) : Except MemErr Nat :=
  if ¬ f.range.containsRange address size then .error .boundsError
  else .ok (leDecode f.data (address - f.range.base) size)

/-- `FlashMemory.write`: always raises `MemoryAccessError`
("Cannot write to flash memory"). -/
def flashWrite (_f : Flash) (_address _size _value : Nat) : Except MemErr Unit :=
  .error .accessError

/-- `RamMemory.read`. -/
def ramRead (r : AddressRange) (m : Nat → Nat) (address size : Nat) : Except MemErr Nat :=
  if ¬ r.containsRange address size then .error .boundsError
  else .ok (leDecode m (address - r.base) size)

/-- `RamMemory.write`: bounds check, mask the value to the access size, store
little-endian bytes. -/
def ramWrite (r : AddressRange) (m : Nat → Nat) (address size value : Nat) :
    Except MemErr (Nat → Nat) :=
  if ¬ r.containsRange address size then .error .boundsError
  else .ok (storeBytes m (address - r.base) size (value &&& sizeMask size))

/-- `BitBandRegion`: alias range, target range, and the peripheral flag. -/
structure BBRegion where
  range : AddressRange
  target : AddressRange
  targetIsPeripheral : Bool
  deriving DecidableEq, Repr

/-- `BitBandRegion.translate`: for alias offset `off`, the target address is
`target.base + (off / 32) * 4` and the bit index is `(off % 32) / 4`; bounds
failures raise a bounds error. -/
def BBRegion.translate (bb : BBRegion) (aliasAddress : Nat) :
    Except MemErr (Nat × Nat) :=
  if ¬ bb.range.containsA aliasAddress then .error .boundsError
  else
    let aliasOffset := aliasAddress - bb.range.base
    let byteOffset := (aliasOffset / 32) * 4
    let bitIndex := (aliasOffset % 32) / 4
    let targetAddress := bb.target.base + byteOffset
    if ¬ bb.target.containsA targetAddress then .error .boundsError
    else .ok (targetAddress, bitIndex)

end Mem

/-! ### Peripheral registration (`AddressSpace.register_peripheral`)

Base and size are Python ints, so they are modelled as `Int` (the source
rejects `size <= 0`).  The source keeps `_periph_bases` sorted and finds the
insertion index with `bisect_left`; on a sorted list that index is the length
of the prefix of bases strictly below the new base, so the prefix/suffix
split below is the same computation.  All overlap checks happen before the
insertion, so a failed call leaves the mapping list untouched — in this
functional model an `error` result returns no new list. -/

namespace Reg

/-- Address range over Python ints. -/
structure IRange where
  base : Int
  size : Int
  deriving DecidableEq, Repr

/-- `AddressRange.contains` over `Int`. -/
def IRange.containsI (r : IRange) (a : Int) : Bool :=
  decide (r.base ≤ a) && decide (a < r.base + r.size)

/-- `AddressRange.contains_range` over `Int`. -/
def IRange.containsRangeI (r : IRange) (a s : Int) : Bool :=
  r.containsI a && decide (a + s ≤ r.base + r.size)

/-- A registered `PeripheralMapping` (base and size). -/
structure PM where
  base : Int
  size : Int
  deriving DecidableEq, Repr

/-- The mappings whose bases lie strictly below the new base (the part of the
sorted list before `bisect_left`'s insertion index). -/
def preOf (l : List PM) (base : Int) : List PM :=
  l.takeWhile (fun m => decide (m.base < base))

/-- The mappings from the insertion index on. -/
def postOf (l : List PM) (base : Int) : List PM :=
  l.dropWhile (fun m => decide (m.base < base))

/-- The check against the previous neighbour (`idx > 0` branch):
`base < prev.base + prev.size`. -/
def prevOverlapB (l : List PM) (base : Int) : Bool :=
  match (preOf l base).getLast? with
  | none => false
  | some prev => decide (base < prev.base + prev.size)

/-- The check against the next neighbour (`idx < len` branch):
`base + size > next_base`. -/
def nextOverlapB (l : List PM) (base size : Int) : Bool :=
  match (postOf l base).head? with
  | none => false
  | some nxt => decide (base + size > nxt.base)

/-- `AddressSpace.register_peripheral`: reject non-positive sizes, ranges not
contained in the MMIO window, and overlap with the previous or next neighbour
of the insertion point; otherwise insert sorted.  All checks precede the
insertion, so an error result corresponds to the source raising with the
mapping list untouched. -/
def registerPeripheral (mmio : IRange) (l : List PM) (base size : Int) :
    Except MemErr (List PM) :=
  if size ≤ 0 then .error .valueError
  else if ¬ mmio.containsRangeI base size then .error .boundsError
  else if prevOverlapB l base then .error .valueError
  else if nextOverlapB l base size then .error .valueError
  else .ok (preOf l base ++ ⟨base, size⟩ :: postOf l base)

/-- Sortedness-with-separation of the mapping list: each mapping ends at or
before the next one begins. -/
def chainSepB : List PM → Bool
  | [] => true
  | [_] => true
  | a :: b :: rest => decide (a.base + a.size ≤ b.base) && chainSepB (b :: rest)

/-- The registration invariant: positive sizes, containment in the MMIO
window, and the sorted-separated chain. -/
def PInv (mmio : IRange) (l : List PM) : Prop :=
  (∀ m ∈ l, 0 < m.size ∧ mmio.containsRangeI m.base m.size = true) ∧ chainSepB l = true

/-- Two mappings occupy disjoint address ranges. -/
def pmDisjoint (a b : PM) : Prop :=
  a.base + a.size ≤ b.base ∨ b.base + b.size ≤ a.base

end Reg

/-! ### Debug session (`simulator/debug/session.py`) -/

namespace Debug

/-- `StopReason` dataclass. -/
structure StopReason where
  reason : String
  address : Option Nat := none
  detail : Option String := none
  watchId : Option Nat := none
  deriving DecidableEq, Repr

/-- A consumed watchpoint hit (address and watch id). -/
structure WatchHit where
  address : Nat
  id : Nat
  deriving DecidableEq, Repr

/-- The CPU operations the debug session uses: current PC (register 15), one
engine step (exceptions as `Except.error`), and consuming a pending watch
hit.  The state type `σ` stands for the whole CPU/board state. -/
structure Cpu (σ : Type) where
  pc : σ → Nat
  stepFn : σ → Except String σ
  consumeWatchHit : σ → Option WatchHit × σ

/-- Modelled from the spec: `CortexM` (`src/simulator/core/cpu.py`) defines no
`add_breakpoint` / `is_breakpoint` methods even though `DebugSession` calls
them; per the spec a breakpoint fires when "PC equals a registered
breakpoint", so the registered set is a list of addresses and the check is
membership. -/
def isBreakpoint (bps : List Nat) (pc : Nat) : Bool := bps.contains pc

/-- `DebugSession.step`: breakpoint at the current PC stops before executing;
otherwise step (fault on engine error), consume a watch hit, then check the
new PC for a breakpoint. -/
def sessionStep (c : Cpu σ) (bps : List Nat) (s : σ) : σ × StopReason :=
  let pc := c.pc s
  if isBreakpoint bps pc then (s, { reason := "breakpoint", address := some pc })
  else
    match c.stepFn s with
    | .error exc => (s, { reason := "fault", address := some pc, detail := some exc })
    | .ok s1 =>
      match c.consumeWatchHit s1 with
      | (some hit, s2) =>
          (s2, { reason := "watchpoint", address := some hit.address, watchId := some hit.id })
      | (none, s2) =>
        let pcAfter := c.pc s2
        if isBreakpoint bps pcAfter then (s2, { reason := "breakpoint", address := some pcAfter })
        else (s2, { reason := "step", address := some pcAfter })

/-- One `while True` iteration of `DebugSession.run`, with explicit fuel.
Returns the final state, the stop reason, and the value of the local `steps`
counter.  The body mirrors the source order exactly: halt flag, breakpoint at
the current PC, step (fault), watch hit, `steps += 1` and the `max_steps`
check.  There is no breakpoint check between the watch-hit check and the
step-count check. -/
def sessionRunLoop (c : Cpu σ) (bps : List Nat) (maxSteps : Option Nat)
    (halt : Bool) : Nat → Nat → σ → Option (σ × StopReason × Nat)
  | 0, _, _ => none
  | fuel + 1, steps, s =>
    if halt then some (s, { reason := "halt", address := some (c.pc s) }, steps)
    else
      let pc := c.pc s
      if isBreakpoint bps pc then some (s, { reason := "breakpoint", address := some pc }, steps)
      else
        match c.stepFn s with
        | .error exc =>
            some (s, { reason := "fault", address := some pc, detail := some exc }, steps)
        | .ok s1 =>
          match c.consumeWatchHit s1 with
          | (some hit, s2) =>
              some (s2, { reason := "watchpoint", address := some hit.address,
                          watchId := some hit.id }, steps)
          | (none, s2) =>
            let steps1 := steps + 1
            match maxSteps with
            | some mx =>
                if steps1 ≥ mx then
                  some (s2, { reason := "limit", address := some (c.pc s2) }, steps1)
                else sessionRunLoop c bps maxSteps halt fuel steps1 s2
            | none => sessionRunLoop c bps maxSteps halt fuel steps1 s2

/-- `DebugSession.run`: clears the halt flag, then loops with the step counter
starting at 0.  The flag is only mutated concurrently, so within this
single-threaded model it stays cleared. -/
def sessionRun (c : Cpu σ) (bps : List Nat) (maxSteps : Option Nat) (fuel : Nat)
    (s : σ) : Option (σ × StopReason × Nat) :=
  sessionRunLoop c bps maxSteps false fuel 0 s

end Debug

/-! ### Address space dispatch (`simulator/core/memmap.py`) -/

namespace Mem

/-- Peripheral mapping as seen by the dispatcher: its address range.  The
peripheral objects themselves live in the `π` component of `ASpace`,
addressed by their mapping base. -/
structure PMap where
  range : AddressRange
  deriving DecidableEq, Repr

/-- The `AddressSpace` aggregate: flash, SRAM (byte store indexed by offset),
MMIO window, bit-band alias regions, registered peripheral mappings, and the
combined peripheral state `π`. -/
structure ASpace (π : Type) where
  flash : Flash
  sramRange : AddressRange
  sramData : Nat → Nat
  mmio : AddressRange
  bitbands : List BBRegion
  periphs : List PMap
  pstate : π

/-- Read/write behaviour of the registered peripherals: given the combined
state, a mapping base, a peripheral-relative offset, an access size (and a
value), perform `peripheral.read` / `peripheral.write`. -/
structure PeriphOps (π : Type) where
  pRead : π → Nat → Nat → Nat → Except MemErr Nat
  pWrite : π → Nat → Nat → Nat → Nat → Except MemErr π

/-- `AddressSpace.find_peripheral`: the registered mapping containing the
address.  The source binary-searches the sorted disjoint base list; on such a
list this returns the same mapping as first-containing search. -/
def findPeriph (l : List PMap) (address : Nat) : Option PMap :=
  l.find? (fun m => m.range.containsA address)

/-- `AddressSpace._validate_access`: size in 1/2/4 and natural alignment. -/
def validateAccess (address size : Nat) : Except MemErr Unit :=
  if ¬ validSize size then .error .accessError
  else if 1 < size ∧ address % size ≠ 0 then .error .alignmentError
  else .ok ()

/-- `AddressSpace._bitband_read`: translate, read the underlying 32-bit word
from the peripheral or SRAM, extract the bit. -/
def bitbandRead (sp : ASpace π) (ops : PeriphOps π) (bb : BBRegion) (address : Nat) :
    Except MemErr Nat := do
  let (targetAddr, bitIdx) ← bb.translate address
  let word ←
    if bb.targetIsPeripheral then
      match findPeriph sp.periphs targetAddr with
      | none => .error .accessError
      | some m => ops.pRead sp.pstate m.range.base (targetAddr - m.range.base) 4
    else ramRead sp.sramRange sp.sramData targetAddr 4
  pure ((word >>> bitIdx) &&& 1)

/-- `AddressSpace._bitband_write`: translate, read-modify-write the underlying
word (set the bit when `value & 1` is non-zero, else clear it).  The source
looks the peripheral mapping up again for the write-back; this is mirrored. -/
def bitbandWrite (sp : ASpace π) (ops : PeriphOps π) (bb : BBRegion)
    (address value : Nat) : Except MemErr (ASpace π) := do
  let (targetAddr, bitIdx) ← bb.translate address
  let word ←
    if bb.targetIsPeripheral then
      match findPeriph sp.periphs targetAddr with
      | none => .error .accessError
      | some m => ops.pRead sp.pstate m.range.base (targetAddr - m.range.base) 4
    else ramRead sp.sramRange sp.sramData targetAddr 4
  let word := if value &&& 1 ≠ 0 then word ||| (1 <<< bitIdx) else pyAndNot word (1 <<< bitIdx)
  if bb.targetIsPeripheral then
    match findPeriph sp.periphs targetAddr with
    | none => .error .accessError
    | some m => do
        let p ← ops.pWrite sp.pstate m.range.base (targetAddr - m.range.base) 4 word
        pure { sp with pstate := p }
  else do
    let d ← ramWrite sp.sramRange sp.sramData targetAddr 4 word
    pure { sp with sramData := d }

/-- `AddressSpace.read`: validate, then dispatch to the first containing
bit-band region (32-bit only), flash, SRAM, or an MMIO peripheral. -/
def asRead (sp : ASpace π) (ops : PeriphOps π) (address size : Nat) :
    Except MemErr Nat := do
  validateAccess address size
  match sp.bitbands.find? (fun bb => bb.range.containsA address) with
  | some bb =>
      if size ≠ 4 then .error .accessError
      else bitbandRead sp ops bb address
  | none =>
      if sp.flash.range.containsA address then flashRead sp.flash address size
      else if sp.sramRange.containsA address then ramRead sp.sramRange sp.sramData address size
      else if sp.mmio.containsA address then
        match findPeriph sp.periphs address with
        | some m => ops.pRead sp.pstate m.range.base (address - m.range.base) size
        | none => .error .accessError
      else .error .accessError

/-- `AddressSpace.write`: validate, then dispatch; writes that reach the flash
region raise the flash permission error. -/
def asWrite (sp : ASpace π) (ops : PeriphOps π) (address size value : Nat) :
    Except MemErr (ASpace π) := do
  validateAccess address size
  match sp.bitbands.find? (fun bb => bb.range.containsA address) with
  | some bb =>
      if size ≠ 4 then .error .accessError
      else bitbandWrite sp ops bb address value
  | none =>
      if sp.flash.range.containsA address then do
        flashWrite sp.flash address size value
        pure sp
      else if sp.sramRange.containsA address then do
        let d ← ramWrite sp.sramRange sp.sramData address size value
        pure { sp with sramData := d }
      else if sp.mmio.containsA address then
        match findPeriph sp.periphs address with
        | some m => do
            let p ← ops.pWrite sp.pstate m.range.base (address - m.range.base) size value
            pure { sp with pstate := p }
        | none => .error .accessError
      else .error .accessError

/-- Byte-by-byte store through `AddressSpace.write` (the loop bodies of
`DebugSession.write_memory`): write byte `i` of `data` at `address + i` with
access size 1, stopping at the first error. -/
def writeBytesVia (ops : PeriphOps π) :
    ASpace π → Nat → Nat → List Nat → Except MemErr (ASpace π)
  | sp, _, _, [] => .ok sp
  | sp, address, i, v :: rest =>
    match asWrite sp ops (address + i) 1 v with
    | .error e => .error e
    | .ok sp1 => writeBytesVia ops sp1 address (i + 1) rest

/-- Byte-by-byte store through `RamMemory.write` (the SRAM branch of
`DebugSession.write_memory`). -/
def writeBytesSram :
    AddressRange → (Nat → Nat) → Nat → Nat → List Nat → Except MemErr (Nat → Nat)
  | _, m, _, _, [] => .ok m
  | r, m, address, i, v :: rest =>
    match ramWrite r m (address + i) 1 v with
    | .error e => .error e
    | .ok m1 => writeBytesSram r m1 address (i + 1) rest

/-- `DebugSession.write_memory`: MMIO is written byte-by-byte through the
address space; flash addresses call `flash.program(address, data)` — but
`FlashMemory` (`simulator/core/address_space.py`) defines no `program`
method, so Python raises `AttributeError` there before touching any state;
SRAM is written byte-by-byte through `RamMemory.write` (the subsequent
`engine.write_memory` mirror targets the external Unicorn engine, outside
this model); anything else falls back to the address space byte loop. -/
def sessionWriteMemory (sp : ASpace π) (ops : PeriphOps π) (address : Nat)
    (data : List Nat) : Except MemErr (ASpace π) :=
  if sp.mmio.containsA address then writeBytesVia ops sp address 0 data
  else if sp.flash.range.containsA address then .error .attributeError
  else if sp.sramRange.containsA address then
    match writeBytesSram sp.sramRange sp.sramData address 0 data with
    | .error e => .error e
    | .ok m => .ok { sp with sramData := m }
  else writeBytesVia ops sp address 0 data

end Mem

/-! ### Concrete fixtures used by witnesses and counterexamples -/

namespace Fix

/-- A minimal CPU over `σ = Nat` (the state is just the PC): each step
advances the PC by one Thumb instruction width, no watch hits. -/
def natCpu : Debug.Cpu Nat :=
  { pc := fun s => s
    stepFn := fun s => .ok (s + 2)
    consumeWatchHit := fun s => (none, s) }

/-- Canonical STM32 GPIO offsets (IDR 0x10, ODR 0x14, BSRR 0x18). -/
def stmOffsets : Stm32.Offsets := { idr := 0x10, odr := 0x14, bsrr := 0x18 }

/-- Peripheral operations of a single STM32 GPIO port (the combined
peripheral state is that port's state). -/
def stmOps : Mem.PeriphOps Stm32.State :=
  { pRead := fun s _base offset size => Stm32.gpioRead stmOffsets s offset size
    pWrite := fun s _base offset size value => Stm32.gpioWrite stmOffsets s offset size value }

/-- An STM32F4-like address space: flash at 0x08000000, SRAM at 0x20000000,
MMIO window at 0x40000000 with the peripheral bit-band alias at 0x42000000,
and one GPIO port registered at 0x40020000. -/
def stmSpace : Mem.ASpace Stm32.State :=
  { flash := { range := { base := 0x08000000, size := 0x1000 }, data := fun _ => 0 }
    sramRange := { base := 0x20000000, size := 0x1000 }
    sramData := fun _ => 0
    mmio := { base := 0x40000000, size := 0x100000 }
    bitbands :=
      [ { range := { base := 0x22000000, size := 0x2000000 }
          target := { base := 0x20000000, size := 0x1000 }
          targetIsPeripheral := false }
      , { range := { base := 0x42000000, size := 0x2000000 }
          target := { base := 0x40000000, size := 0x100000 }
          targetIsPeripheral := true } ]
    periphs := [ { range := { base := 0x40020000, size := 0x400 } } ]
    pstate := { odr := 0, externalInputs := none } }

/-- The peripheral bit-band alias address of bit 0 of the BSRR register at
0x40020018: alias offset `(0x20018 / 4) * 32 = 0x1000C0`. -/
def bsrrAliasAddr : Nat := 0x42000000 + 0x1000C0

/-- The spec's S1 firmware image prefix (MSP = 0x20001000). -/
def img0 : List Nat := [0x00, 0x10, 0x00, 0x20]

/-- The flash of `stmSpace` after `load_image(img0)`. -/
def loadedFlash : Mem.Flash :=
  { range := { base := 0x08000000, size := 0x1000 }
    data := fun i => if i < img0.length then img0.getD i 0 else stmSpace.flash.data i }

/-- MMIO window used by the registration witness. -/
def mmio0 : Reg.IRange := { base := 0x40000000, size := 0x20000000 }

/-- One pre-registered mapping. -/
def regList0 : List Reg.PM := [ { base := 0x40004000, size := 0x1000 } ]

end Fix

/-! ## Shared arithmetic lemmas -/

theorem testBit_pyAndNot (x y i : Nat) :
    (pyAndNot x y).testBit i = (x.testBit i && !(y.testBit i)) := by
  simp only [pyAndNot, Nat.testBit_xor, Nat.testBit_and]
  cases hx : x.testBit i <;> cases hy : y.testBit i <;> rfl

theorem pyAndNot_le (x y : Nat) : pyAndNot x y ≤ x := by
  apply Nat.le_of_testBit
  intro i h
  rw [testBit_pyAndNot] at h
  simp only [Bool.and_eq_true] at h
  exact h.1

theorem pyAndNot_two_pow_sub_one (x n : Nat) (h : x < 2 ^ n) :
    pyAndNot x (2 ^ n - 1) = 0 := by
  apply Nat.eq_of_testBit_eq
  intro i
  rw [testBit_pyAndNot, Nat.zero_testBit, Nat.testBit_two_pow_sub_one]
  by_cases hi : i < n
  · simp [hi]
  · have : x < 2 ^ i :=
      lt_of_lt_of_le h (Nat.pow_le_pow_right (by norm_num) (Nat.le_of_not_lt hi))
    simp [Nat.testBit_lt_two_pow this]

theorem sizeMask_eq (s : Nat) : sizeMask s = 2 ^ (s * 8) - 1 := by
  simp [sizeMask, Nat.one_shiftLeft]

theorem simpleRegisterRead_eq (v s : Nat) : simpleRegisterRead v s = v % 2 ^ (s * 8) := by
  simp [simpleRegisterRead, sizeMask_eq]

theorem simpleRegisterRead_of_lt (v s : Nat) (h : v < 2 ^ (s * 8)) :
    simpleRegisterRead v s = v := by
  rw [simpleRegisterRead_eq]
  exact Nat.mod_eq_of_lt h

theorem simpleRegisterWrite_full (old v : Nat) (ho : old < 2 ^ 32) (hv : v < 2 ^ 32) :
    simpleRegisterWrite old 4 v = v := by
  unfold simpleRegisterWrite
  rw [sizeMask_eq]
  have h48 : (4 * 8 : Nat) = 32 := by norm_num
  rw [h48, pyAndNot_two_pow_sub_one _ _ ho, Nat.and_pow_two_sub_one_of_lt_two_pow hv,
    Nat.zero_or]

theorem word_split_or (set reset : Nat) (hs : set < 2 ^ 16) :
    (reset <<< 16) ||| set = 2 ^ 16 * reset + set := by
  rw [Nat.shiftLeft_eq, Nat.mul_comm]
  exact (Nat.mul_add_lt_is_or hs reset).symm

theorem word_low16 (set reset : Nat) (hs : set < 2 ^ 16) :
    ((reset <<< 16) ||| set) &&& (2 ^ 16 - 1) = set := by
  rw [word_split_or set reset hs, Nat.and_pow_two_sub_one_eq_mod, Nat.mul_add_mod,
    Nat.mod_eq_of_lt hs]

theorem word_high16 (set reset : Nat) (hs : set < 2 ^ 16) (hr : reset < 2 ^ 16) :
    (((reset <<< 16) ||| set) >>> 16) &&& (2 ^ 16 - 1) = reset := by
  rw [word_split_or set reset hs, Nat.shiftRight_eq_div_pow,
    Nat.mul_add_div (by norm_num), Nat.div_eq_of_lt hs, Nat.add_zero,
    Nat.and_pow_two_sub_one_of_lt_two_pow hr]

/-! ## C1 — STM32 BSRR -/

/-- C1: writing the 32-bit word `(reset <<< 16) ||| set` to the STM32 BSRR
register (through `STM32GPIO.write`) updates ODR, in that single write, to
`(old_ODR | set) & ~reset`; bits present in both masks end up cleared (reset
wins), since the reset mask is applied after the set mask. -/
theorem stm32_bsrr_atomic (cfg : Stm32.Offsets) (s : Stm32.State) (set reset : Nat)
    (hbo : cfg.bsrr ≠ cfg.odr) (hbi : cfg.bsrr ≠ cfg.idr)
    (hs : set < 2 ^ 16) (hr : reset < 2 ^ 16) (ho : s.odr < 2 ^ 16) :
    Stm32.gpioWrite cfg s cfg.bsrr 4 ((reset <<< 16) ||| set) =
      .ok { s with odr := pyAndNot (s.odr ||| set) reset } := by
  have h16 : (Stm32.GPIO_DATA_MASK_16BIT : Nat) = 2 ^ 16 - 1 := by norm_num [Stm32.GPIO_DATA_MASK_16BIT]
  have hodr32 : s.odr < 2 ^ (4 * 8) := lt_of_lt_of_le ho (by norm_num)
  have hor : s.odr ||| set < 2 ^ 16 := Nat.or_lt_two_pow ho hs
  have hx : pyAndNot (s.odr ||| set) reset < 2 ^ 16 :=
    lt_of_le_of_lt (pyAndNot_le _ _) hor
  unfold Stm32.gpioWrite Stm32.regFileWrite Stm32.bsrrWrite
  simp only [if_pos rfl, if_neg hbo, if_neg hbi, validSize]
  norm_num
  rw [h16, simpleRegisterRead_of_lt _ _ hodr32, word_low16 set reset hs,
    word_high16 set reset hs hr,
    Nat.and_pow_two_sub_one_of_lt_two_pow hx,
    simpleRegisterWrite_full _ _ (lt_of_lt_of_le ho (by norm_num))
      (lt_of_lt_of_le hx (by norm_num))]

/-- Witness for C1 at a concrete input: port with ODR 3, set mask 5, reset
mask 4 (bit 2 in both masks is cleared). -/
theorem stm32_bsrr_atomic_witness :
    (5 : Nat) < 2 ^ 16 ∧ (4 : Nat) < 2 ^ 16 ∧ (3 : Nat) < 2 ^ 16 ∧
    Stm32.gpioWrite Fix.stmOffsets { odr := 3, externalInputs := none }
        Fix.stmOffsets.bsrr 4 ((4 <<< 16) ||| 5) =
      .ok { odr := pyAndNot ((3 : Nat) ||| 5) 4, externalInputs := none } :=
  ⟨by norm_num, by norm_num, by norm_num,
    stm32_bsrr_atomic Fix.stmOffsets { odr := 3, externalInputs := none } 5 4
      (by decide) (by decide) (by norm_num) (by norm_num) (by norm_num)⟩

/-! ## C9 — read masking by access size -/

/-- C9: reads are masked to the access size for simple (and read-only)
registers, but the claim fails for the other variants: `WriteOnlyRegister.read`
returns the reset value unmasked (so a write-only register with reset value
0x12345678 read with access size 1 returns 0x12345678, not below 2^8), and the
STM32 IDR returns its external-input shadow masked only to 16 bits (so with
shadow 0xFF00 a 1-byte read returns 0xFF00).  Both contradict the contract of
`Register.read` ("Returns: Register value, masked to requested size"). -/
theorem register_read_masking_bug :
    (∀ v s, simpleRegisterRead v s < 2 ^ (s * 8)) ∧
    writeOnlyRegisterRead 0x12345678 1 = 0x12345678 ∧
    ¬ (writeOnlyRegisterRead 0x12345678 1 < 2 ^ (1 * 8)) ∧
    Stm32.idrRead { odr := 0, externalInputs := some 0xFF00 } 1 = 0xFF00 ∧
    ¬ (Stm32.idrRead { odr := 0, externalInputs := some 0xFF00 } 1 < 2 ^ (1 * 8)) := by
  refine ⟨fun v s => ?_, by decide, by decide, by decide, by decide⟩
  rw [simpleRegisterRead_eq]
  exact Nat.mod_lt _ (Nat.two_pow_pos _)

/-! ## C10 — TM4C port data mask on stores -/

/-- C10: in the TM4C GPIO, a 32-bit write to any register outside the masked
DATA window and other than ICR (DIR, AFSEL, DEN, IS, IBE, IEV, IM), and the
direct DATA access at diff = 0, stores the value ANDed with the configured
port data mask. -/
theorem tm4c_port_mask_on_stores (mask v : Nat) (s : Tm4c.State)
    (hmask : mask < 2 ^ 32)
    (hdata : s.data < 2 ^ 32) (hdir : s.dir < 2 ^ 32) (hden : s.den < 2 ^ 32)
    (hafsel : s.afsel < 2 ^ 32) (his : s.is_ < 2 ^ 32) (hibe : s.ibe < 2 ^ 32)
    (hiev : s.iev < 2 ^ 32) (him : s.im < 2 ^ 32) :
    Tm4c.gpioWrite Tm4c.canonOffsets mask s 0x400 4 v = .ok { s with dir := v &&& mask } ∧
    Tm4c.gpioWrite Tm4c.canonOffsets mask s 0x420 4 v = .ok { s with afsel := v &&& mask } ∧
    Tm4c.gpioWrite Tm4c.canonOffsets mask s 0x51C 4 v = .ok { s with den := v &&& mask } ∧
    Tm4c.gpioWrite Tm4c.canonOffsets mask s 0x404 4 v = .ok { s with is_ := v &&& mask } ∧
    Tm4c.gpioWrite Tm4c.canonOffsets mask s 0x408 4 v = .ok { s with ibe := v &&& mask } ∧
    Tm4c.gpioWrite Tm4c.canonOffsets mask s 0x40C 4 v = .ok { s with iev := v &&& mask } ∧
    Tm4c.gpioWrite Tm4c.canonOffsets mask s 0x410 4 v = .ok { s with im := v &&& mask } ∧
    Tm4c.gpioWrite Tm4c.canonOffsets mask s 0x000 4 v = .ok { s with data := v &&& mask } := by
  have hv : v &&& mask < 2 ^ 32 := lt_of_le_of_lt (Nat.and_le_right) hmask
  refine ⟨?_, ?_, ?_, ?_, ?_, ?_, ?_, ?_⟩ <;>
    simp only [Tm4c.gpioWrite, Tm4c.regFileWrite, Tm4c.canonOffsets] <;>
    norm_num [validSize]
  · rw [simpleRegisterWrite_full _ _ hdir hv]
  · rw [simpleRegisterWrite_full _ _ hafsel hv]
  · rw [simpleRegisterWrite_full _ _ hden hv]
  · rw [simpleRegisterWrite_full _ _ his hv]
  · rw [simpleRegisterWrite_full _ _ hibe hv]
  · rw [simpleRegisterWrite_full _ _ hiev hv]
  · rw [simpleRegisterWrite_full _ _ him hv]
  · rw [simpleRegisterWrite_full _ _ hdata hv]

/-- Witness for C10: with port mask 0xFF, a 32-bit write of 0x1FF to IM
(offset 0x410) leaves IM equal to 0xFF. -/
theorem tm4c_port_mask_on_stores_witness :
    (0xFF : Nat) < 2 ^ 32 ∧
    Tm4c.gpioWrite Tm4c.canonOffsets 0xFF
        { data := 0, ris := 0, dir := 0, den := 0, afsel := 0,
          is_ := 0, ibe := 0, iev := 0, im := 0 } 0x410 4 0x1FF =
      .ok { data := 0, ris := 0, dir := 0, den := 0, afsel := 0,
            is_ := 0, ibe := 0, iev := 0, im := 0xFF } := by
  refine ⟨by norm_num, ?_⟩
  have h := (tm4c_port_mask_on_stores 0xFF 0x1FF
    { data := 0, ris := 0, dir := 0, den := 0, afsel := 0,
      is_ := 0, ibe := 0, iev := 0, im := 0 }
    (by norm_num) (by norm_num) (by norm_num) (by norm_num) (by norm_num)
    (by norm_num) (by norm_num) (by norm_num) (by norm_num)).2.2.2.2.2.2.1
  simpa using h

/-! ## C2 — TM4C masked DATA window -/

theorem maskUpdate_inside (d m v : Nat) :
    (pyAndNot d m ||| (v &&& m)) &&& m = v &&& m := by
  apply Nat.eq_of_testBit_eq
  intro i
  simp only [Nat.testBit_or, Nat.testBit_and, testBit_pyAndNot]
  cases d.testBit i <;> cases m.testBit i <;> cases v.testBit i <;> rfl

theorem maskUpdate_outside (d m v : Nat) :
    pyAndNot (pyAndNot d m ||| (v &&& m)) m = pyAndNot d m := by
  apply Nat.eq_of_testBit_eq
  intro i
  simp only [Nat.testBit_or, Nat.testBit_and, testBit_pyAndNot]
  cases d.testBit i <;> cases m.testBit i <;> cases v.testBit i <;> rfl

/-- C2: for the TM4C masked-DATA window with `diff = offset - DATA` in
`(0, 0x3FC]` and pin mask `m = (diff >> 2) & port_mask`: a 32-bit write of `v`
stores `(DATA & ~m) | (v & m)` — so `DATA & m` becomes `v & m` while
`DATA & ~m` is unchanged; a read returns `DATA & m`; at `diff = 0` a read
returns the full data register and a 32-bit write replaces it with
`v & port_mask`; and a write of size other than 4 at a non-zero masked offset
raises a `ValueError`. -/
theorem tm4c_masked_data_window (cfg : Tm4c.Offsets) (mask : Nat) (s : Tm4c.State)
    (offset size v m : Nat)
    (hm : m = ((offset - cfg.data) >>> 2) &&& mask)
    (hold : s.data &&& mask = s.data) (hmask : mask < 2 ^ 32)
    (hdata : s.data < 2 ^ 32) :
    (cfg.data < offset → offset - cfg.data ≤ 0x3FC →
      Tm4c.gpioWrite cfg mask s offset 4 v =
        .ok { s with data := pyAndNot s.data m ||| (v &&& m) } ∧
      (pyAndNot s.data m ||| (v &&& m)) &&& m = v &&& m ∧
      pyAndNot (pyAndNot s.data m ||| (v &&& m)) m = pyAndNot s.data m) ∧
    (cfg.data < offset → offset - cfg.data ≤ 0x3FC →
      Tm4c.gpioRead cfg mask s offset size = .ok (s.data &&& m)) ∧
    (offset = cfg.data →
      Tm4c.gpioRead cfg mask s offset size = .ok (s.data &&& mask) ∧
      Tm4c.gpioWrite cfg mask s offset 4 v = .ok { s with data := v &&& mask }) ∧
    (cfg.data < offset → offset - cfg.data ≤ 0x3FC → size ≠ 4 →
      Tm4c.gpioWrite cfg mask s offset size v = .error .valueError) := by
  refine ⟨fun hlow hhigh => ?_, fun hlow hhigh => ?_, fun heq => ?_,
    fun hlow hhigh hsz => ?_⟩
  · have hcond : (0 : Int) < (offset : Int) - (cfg.data : Int) ∧
        (offset : Int) - (cfg.data : Int) ≤ 0x3FC := by omega
    have hnot : ¬ ((offset : Int) - (cfg.data : Int) ≤ 0 ∨
        (offset : Int) - (cfg.data : Int) > 0x3FC) := by omega
    have htn : ((offset : Int) - (cfg.data : Int)).toNat = offset - cfg.data := by omega
    refine ⟨?_, maskUpdate_inside s.data m v, maskUpdate_outside s.data m v⟩
    simp only [Tm4c.gpioWrite, Tm4c.writeMasked, if_pos hcond, if_neg hnot, htn, hold,
      ← hm]
    norm_num
  · have hcond : (0 : Int) ≤ (offset : Int) - (cfg.data : Int) ∧
        (offset : Int) - (cfg.data : Int) ≤ 0x3FC := by omega
    have hnot : ¬ ((offset : Int) - (cfg.data : Int) < 0 ∨
        (offset : Int) - (cfg.data : Int) > 0x3FC) := by omega
    have hnz : ¬ ((offset : Int) - (cfg.data : Int) = 0) := by omega
    have htn : ((offset : Int) - (cfg.data : Int)).toNat = offset - cfg.data := by omega
    simp only [Tm4c.gpioRead, Tm4c.readMasked, if_pos hcond, if_neg hnot, if_neg hnz,
      htn, ← hm]
  · subst heq
    have hv : v &&& mask < 2 ^ 32 := lt_of_le_of_lt (Nat.and_le_right) hmask
    constructor
    · simp only [Tm4c.gpioRead, Tm4c.readMasked]
      norm_num
    · simp only [Tm4c.gpioWrite, Tm4c.regFileWrite]
      norm_num [validSize]
      rw [simpleRegisterWrite_full _ _ hdata hv]
  · have hcond : (0 : Int) < (offset : Int) - (cfg.data : Int) ∧
        (offset : Int) - (cfg.data : Int) ≤ 0x3FC := by omega
    simp only [Tm4c.gpioWrite, if_pos hcond, if_pos hsz]

/-- Witness for C2 at the spec's S4 scenario: port mask 0xFF, DATA 0, a
32-bit write of 0xFF at diff 8 (pin mask 2) stores 2; a read at diff 8
returns `DATA & 2`; a 1-byte write at diff 8 is rejected. -/
theorem tm4c_masked_data_window_witness :
    ((2 : Nat) = ((8 - Tm4c.canonOffsets.data) >>> 2) &&& 0xFF) ∧
    Tm4c.gpioWrite Tm4c.canonOffsets 0xFF
        { data := 0, ris := 0, dir := 0, den := 0, afsel := 0,
          is_ := 0, ibe := 0, iev := 0, im := 0 } 8 4 0xFF =
      .ok { data := 2, ris := 0, dir := 0, den := 0, afsel := 0,
            is_ := 0, ibe := 0, iev := 0, im := 0 } ∧
    Tm4c.gpioWrite Tm4c.canonOffsets 0xFF
        { data := 0, ris := 0, dir := 0, den := 0, afsel := 0,
          is_ := 0, ibe := 0, iev := 0, im := 0 } 8 1 0xFF = .error .valueError := by
  have h := tm4c_masked_data_window Tm4c.canonOffsets 0xFF
    { data := 0, ris := 0, dir := 0, den := 0, afsel := 0,
      is_ := 0, ibe := 0, iev := 0, im := 0 } 8 1 0xFF 2
    (by decide) (by decide) (by norm_num) (by norm_num)
  refine ⟨by decide, ?_, ?_⟩
  · exact ((h.1 (by decide) (by decide)).1).trans (by rfl)
  · exact h.2.2.2 (by decide) (by decide) (by decide)

/-! ## C5 — breakpoint at the current PC stops before execution -/

/-- C5: when a breakpoint is registered at the current PC, both the debug
`step` command and the debug `run` command return a `breakpoint` stop reason
carrying that address without invoking the engine step: the returned state is
the entry state and `run`'s step counter is 0. -/
theorem debug_breakpoint_at_pc {σ : Type} (c : Debug.Cpu σ) (bps : List Nat) (s : σ)
    (maxSteps : Option Nat) (fuel : Nat)
    (hbp : Debug.isBreakpoint bps (c.pc s) = true) (hfuel : 0 < fuel) :
    Debug.sessionStep c bps s = (s, { reason := "breakpoint", address := some (c.pc s) }) ∧
    Debug.sessionRun c bps maxSteps fuel s =
      some (s, { reason := "breakpoint", address := some (c.pc s) }, 0) := by
  constructor
  · unfold Debug.sessionStep
    simp [hbp]
  · obtain ⟨k, rfl⟩ : ∃ k, fuel = k + 1 := ⟨fuel - 1, by omega⟩
    unfold Debug.sessionRun Debug.sessionRunLoop
    simp [hbp]

/-- Witness for C5: a CPU at PC 4 with a breakpoint registered at 4. -/
theorem debug_breakpoint_at_pc_witness :
    Debug.isBreakpoint [4] (Fix.natCpu.pc 4) = true ∧ (0 : Nat) < 1 ∧
    Debug.sessionStep Fix.natCpu [4] 4 =
      (4, { reason := "breakpoint", address := some 4 }) ∧
    Debug.sessionRun Fix.natCpu [4] none 1 4 =
      some (4, { reason := "breakpoint", address := some 4 }, 0) := by
  have h := debug_breakpoint_at_pc Fix.natCpu [4] 4 none 1 (by decide) (by decide)
  exact ⟨by decide, by decide, h.1, h.2⟩

/-! ## C6 — run-loop ordering: no post-step breakpoint check -/

/-- C6 counterexample: CPU starts at PC 0, stepping lands on PC 2 where a
breakpoint is registered, and `max_steps = 1` is reached in the same
iteration; `run` returns `limit`, not `breakpoint`, because the loop has no
breakpoint check between the watch-hit check and the step-count check. -/
theorem run_limit_shadow_counterexample :
    Debug.isBreakpoint [2] (Fix.natCpu.pc 2) = true ∧
    Debug.sessionRun Fix.natCpu [2] (some 1) 3 0 =
      some (2, { reason := "limit", address := some 2 }, 1) ∧
    ("limit" : String) ≠ "breakpoint" := by
  refine ⟨by decide, by decide, by decide⟩

/-- C6 amended: each `run` iteration checks, in order: halt request,
breakpoint at the current PC, one engine step (error gives `fault`), watch
hit (`watchpoint`), then the step-count increment and the `max_steps` check
(`limit`).  There is no breakpoint check at the new PC inside the iteration:
when the executed step lands on a breakpointed PC in the same iteration in
which `max_steps` is reached, `run` returns `limit`; with a larger budget the
breakpoint is reported by the current-PC check at the top of the next
iteration. -/
theorem run_loop_ordering_amended {σ : Type} (c : Debug.Cpu σ) (bps : List Nat)
    (s s1 s2 : σ) (fuel : Nat)
    (hnb : Debug.isBreakpoint bps (c.pc s) = false)
    (hstep : c.stepFn s = .ok s1)
    (hwatch : c.consumeWatchHit s1 = (none, s2)) :
    Debug.sessionRun c bps (some 1) (fuel + 1) s =
      some (s2, { reason := "limit", address := some (c.pc s2) }, 1) ∧
    (Debug.isBreakpoint bps (c.pc s2) = true →
      Debug.sessionRun c bps (some 2) (fuel + 2) s =
        some (s2, { reason := "breakpoint", address := some (c.pc s2) }, 1)) := by
  constructor
  · unfold Debug.sessionRun Debug.sessionRunLoop
    simp [hnb, hstep, hwatch]
  · intro hb2
    show Debug.sessionRunLoop c bps (some 2) false (fuel + 1 + 1) 0 s = _
    unfold Debug.sessionRunLoop
    simp only [hstep, hwatch, hnb, Bool.false_eq_true, if_false, Nat.zero_add]
    norm_num
    unfold Debug.sessionRunLoop
    simp [hb2]

/-- Witness for the amended C6: stepping from PC 0 lands on the registered
breakpoint address 2 while `max_steps = 1` fires; the result is `limit`. -/
theorem run_loop_ordering_amended_witness :
    Debug.isBreakpoint [2] (Fix.natCpu.pc 0) = false ∧
    Fix.natCpu.stepFn 0 = .ok 2 ∧
    Fix.natCpu.consumeWatchHit 2 = (none, 2) ∧
    Debug.sessionRun Fix.natCpu [2] (some 1) 1 0 =
      some (2, { reason := "limit", address := some 2 }, 1) := by
  have h := run_loop_ordering_amended Fix.natCpu [2] 0 2 2 0
    (by decide) (by rfl) (by rfl)
  exact ⟨by decide, by rfl, by rfl, h.1⟩

/-! ## C4 — peripheral registration invariant -/

theorem chainSepB_iff_chain' : ∀ l : List Reg.PM,
    Reg.chainSepB l = true ↔
      List.Chain' (fun a b : Reg.PM => a.base + a.size ≤ b.base) l
  | [] => by simp [Reg.chainSepB]
  | [a] => by simp [Reg.chainSepB]
  | a :: b :: rest => by
    rw [Reg.chainSepB, List.chain'_cons]
    simp only [Bool.and_eq_true, decide_eq_true_eq,
      chainSepB_iff_chain' (b :: rest)]

theorem chain_le_all : ∀ (a : Reg.PM) (l : List Reg.PM),
    List.Chain' (fun a b : Reg.PM => a.base + a.size ≤ b.base) (a :: l) →
    (∀ m ∈ l, 0 < m.size) → ∀ b ∈ l, a.base + a.size ≤ b.base
  | _, [], _, _, b, hb => by cases hb
  | a, c :: rest, h, hpos, b, hb => by
    rw [List.chain'_cons] at h
    rcases List.mem_cons.mp hb with rfl | hb'
    · exact h.1
    · have hc := chain_le_all c rest h.2
        (fun m hm => hpos m (List.mem_cons_of_mem _ hm)) b hb'
      have hcs : 0 < c.size := hpos c (List.mem_cons_self _ _)
      have hac := h.1
      omega

theorem chain_pairwise : ∀ l : List Reg.PM,
    List.Chain' (fun a b : Reg.PM => a.base + a.size ≤ b.base) l →
    (∀ m ∈ l, 0 < m.size) → List.Pairwise Reg.pmDisjoint l
  | [], _, _ => List.Pairwise.nil
  | a :: rest, h, hpos => by
    rw [List.pairwise_cons]
    refine ⟨fun b hb => Or.inl ?_, ?_⟩
    · exact chain_le_all a rest h
        (fun m hm => hpos m (List.mem_cons_of_mem _ hm)) b hb
    · exact chain_pairwise rest h.tail
        (fun m hm => hpos m (List.mem_cons_of_mem _ hm))

/-- C4: starting from a mapping list satisfying the registration invariant
(positive sizes, containment in the MMIO window, sorted with separated
neighbours), a successful `register_peripheral` yields a list that again
satisfies the invariant and is pairwise disjoint; the call errors out on
non-positive size, on a range not contained in the MMIO window, and on
overlap with the previous or the next neighbour of the insertion point (all
checks precede the insertion, so a failed call leaves the mapping set
unchanged). -/
theorem registerPeripheral_spec (mmio : Reg.IRange) (l : List Reg.PM)
    (base size : Int) (hInv : Reg.PInv mmio l) :
    (∀ l', Reg.registerPeripheral mmio l base size = .ok l' →
      Reg.PInv mmio l' ∧ List.Pairwise Reg.pmDisjoint l') ∧
    (size ≤ 0 → Reg.registerPeripheral mmio l base size = .error .valueError) ∧
    (0 < size → ¬ mmio.containsRangeI base size = true →
      Reg.registerPeripheral mmio l base size = .error .boundsError) ∧
    (0 < size → mmio.containsRangeI base size = true →
      Reg.prevOverlapB l base = true →
      Reg.registerPeripheral mmio l base size = .error .valueError) ∧
    (0 < size → mmio.containsRangeI base size = true →
      Reg.prevOverlapB l base = false → Reg.nextOverlapB l base size = true →
      Reg.registerPeripheral mmio l base size = .error .valueError) := by
  refine ⟨?_, ?_, ?_, ?_, ?_⟩
  · intro l' hok
    unfold Reg.registerPeripheral at hok
    split_ifs at hok with h1 h2 h3 h4
    injection hok with hok
    subst hok
    have hsize : 0 < size := by omega
    have hcont : mmio.containsRangeI base size = true := h2
    have hl : Reg.preOf l base ++ Reg.postOf l base = l := by
      unfold Reg.preOf Reg.postOf
      exact List.takeWhile_append_dropWhile _ _
    have hchain : List.Chain' (fun a b : Reg.PM => a.base + a.size ≤ b.base) l :=
      (chainSepB_iff_chain' l).mp hInv.2
    have hchains := List.chain'_append.mp (by rw [hl]; exact hchain)
    have hpreSub : ∀ m ∈ Reg.preOf l base, m ∈ l :=
      fun m hm => (List.takeWhile_prefix _).subset hm
    have hpostSub : ∀ m ∈ Reg.postOf l base, m ∈ l :=
      fun m hm => (List.dropWhile_suffix _).subset hm
    have hprevFact : ∀ prev ∈ (Reg.preOf l base).getLast?,
        prev.base + prev.size ≤ base := by
      intro prev hprev
      have hp : (Reg.preOf l base).getLast? = some prev := Option.mem_def.mp hprev
      unfold Reg.prevOverlapB at h3
      rw [hp] at h3
      simpa using h3
    have hnextFact : ∀ nxt ∈ (Reg.postOf l base).head?,
        base + size ≤ nxt.base := by
      intro nxt hnxt
      have hp : (Reg.postOf l base).head? = some nxt := Option.mem_def.mp hnxt
      unfold Reg.nextOverlapB at h4
      rw [hp] at h4
      have h4' : ¬ (base + size > nxt.base) := by simpa using h4
      omega
    have hmem : ∀ m ∈ Reg.preOf l base ++ (⟨base, size⟩ : Reg.PM) :: Reg.postOf l base,
        0 < m.size ∧ mmio.containsRangeI m.base m.size = true := by
      intro m hm
      rcases List.mem_append.mp hm with hm | hm
      · exact hInv.1 m (hpreSub m hm)
      · rcases List.mem_cons.mp hm with rfl | hm
        · exact ⟨hsize, hcont⟩
        · exact hInv.1 m (hpostSub m hm)
    have hchain' : List.Chain' (fun a b : Reg.PM => a.base + a.size ≤ b.base)
        (Reg.preOf l base ++ (⟨base, size⟩ : Reg.PM) :: Reg.postOf l base) := by
      rw [List.chain'_append]
      refine ⟨hchains.1, ?_, ?_⟩
      · rw [List.chain'_cons']
        exact ⟨hnextFact, hchains.2.1⟩
      · intro x hx y hy
        have hy' : (⟨base, size⟩ : Reg.PM) = y := by
          simpa using Option.mem_def.mp hy
        subst hy'
        exact hprevFact x hx
    refine ⟨⟨hmem, (chainSepB_iff_chain' _).mpr hchain'⟩, ?_⟩
    exact chain_pairwise _ hchain' (fun m hm => (hmem m hm).1)
  · intro h
    unfold Reg.registerPeripheral
    rw [if_pos h]
  · intro hpos hnc
    unfold Reg.registerPeripheral
    rw [if_neg (by omega), if_pos hnc]
  · intro hpos hc hprev
    unfold Reg.registerPeripheral
    rw [if_neg (by omega), if_neg (by simp [hc]), if_pos hprev]
  · intro hpos hc hprev hnext
    unfold Reg.registerPeripheral
    rw [if_neg (by omega), if_neg (by simp [hc]), if_neg (by simp [hprev]),
      if_pos hnext]

/-- Witness for C4: registering a 0x400-byte GPIO port at 0x40020000 next to
an existing mapping at 0x40004000 succeeds and preserves the invariant. -/
theorem registerPeripheral_spec_witness :
    Reg.PInv Fix.mmio0 Fix.regList0 ∧
    (Reg.PInv Fix.mmio0
        [⟨0x40004000, 0x1000⟩, ⟨0x40020000, 0x400⟩] ∧
      List.Pairwise Reg.pmDisjoint
        [⟨0x40004000, 0x1000⟩, ⟨0x40020000, 0x400⟩]) := by
  have hInv : Reg.PInv Fix.mmio0 Fix.regList0 := by
    constructor
    · intro m hm
      simp only [Fix.regList0, List.mem_singleton] at hm
      subst hm
      exact ⟨by norm_num, by decide⟩
    · decide
  refine ⟨hInv, ?_⟩
  exact (registerPeripheral_spec Fix.mmio0 Fix.regList0 0x40020000 0x400 hInv).1
    [⟨0x40004000, 0x1000⟩, ⟨0x40020000, 0x400⟩] (by rfl)

/-! ## C8 — flash is read-only -/

theorem leDecode_congr (m1 m2 : Nat → Nat) (off : Nat) :
    ∀ k, (∀ i, i < k → m1 (off + i) = m2 (off + i)) →
      Mem.leDecode m1 off k = Mem.leDecode m2 off k := by
  intro k
  induction k generalizing off with
  | zero => intro _; rfl
  | succ n ih =>
    intro h
    unfold Mem.leDecode
    have h0 : m1 off = m2 off := by simpa using h 0 (by omega)
    rw [h0, ih (off + 1) ?_]
    intro i hi
    rw [Nat.add_assoc]
    exact h (1 + i) (by omega)

/-- C8: `FlashMemory.write` always raises the flash permission error (and, as
a pure function, cannot change the flash contents); `load_image` fails when
the image exceeds the flash size; after a successful `load_image`, `read` at
any in-bounds flash window little-endian-decodes the stored bytes, which
within the image window are exactly the loaded bytes; and a write routed
through `AddressSpace.write` to a flash address errors out for every access
size — with the flash permission error for valid aligned sizes, an access
error for invalid sizes, and an alignment error for misaligned accesses. -/
theorem flash_read_only_spec (f : Mem.Flash) (a size v : Nat) (img : List Nat) :
    (Mem.flashWrite f a size v = .error .accessError) ∧
    (img.length > f.range.size → Mem.flashLoadImage f img = .error .valueError) ∧
    (img.length ≤ f.range.size → ∀ f', Mem.flashLoadImage f img = .ok f' →
      (f.range.containsRange a size = true →
        Mem.flashRead f' a size =
          .ok (Mem.leDecode
            (fun i => if i < img.length then img.getD i 0 else f.data i)
            (a - f.range.base) size)) ∧
      (f.range.containsRange a size = true →
        a - f.range.base + size ≤ img.length →
        Mem.flashRead f' a size =
          .ok (Mem.leDecode (fun i => img.getD i 0) (a - f.range.base) size))) ∧
    (∀ (π : Type) (sp : Mem.ASpace π) (ops : Mem.PeriphOps π),
      sp.flash = f →
      sp.bitbands.find? (fun bb => bb.range.containsA a) = none →
      f.range.containsA a = true →
      (validSize size = true → (size = 1 ∨ a % size = 0) →
        Mem.asWrite sp ops a size v = .error .accessError) ∧
      (validSize size = false → Mem.asWrite sp ops a size v = .error .accessError) ∧
      (validSize size = true → 1 < size → a % size ≠ 0 →
        Mem.asWrite sp ops a size v = .error .alignmentError)) := by
  refine ⟨rfl, ?_, ?_, ?_⟩
  · intro h
    unfold Mem.flashLoadImage
    rw [if_pos h]
  · intro hle f' hok
    unfold Mem.flashLoadImage at hok
    rw [if_neg (by omega)] at hok
    injection hok with hok
    subst hok
    constructor
    · intro hcr
      unfold Mem.flashRead
      rw [if_neg (by simp [hcr])]
    · intro hcr hwin
      unfold Mem.flashRead
      rw [if_neg (by simp [hcr])]
      congr 1
      apply leDecode_congr
      intro i hi
      have : a - f.range.base + i < img.length := by omega
      simp [this]
  · intro π sp ops hsp hbb hca
    refine ⟨fun hvs hal => ?_, fun hvs => ?_, fun hvs hlt hmod => ?_⟩
    · have hno : ¬ (1 < size ∧ a % size ≠ 0) := by
        rintro ⟨hh1, hh2⟩
        rcases hal with h1 | h2
        · omega
        · exact hh2 h2
      have hval : Mem.validateAccess a size = Except.ok () := by
        unfold Mem.validateAccess
        rw [if_neg (by simp [hvs]), if_neg hno]

      unfold Mem.asWrite
      rw [hval]
      show Except.bind (Except.ok ()) _ = _
      simp only [Except.bind, hbb, hsp, hca, if_pos]
      rfl
    · have hval : Mem.validateAccess a size = Except.error .accessError := by
        unfold Mem.validateAccess
        rw [if_pos (by simp [hvs])]
      unfold Mem.asWrite
      rw [hval]
      rfl
    · have hval : Mem.validateAccess a size = Except.error .alignmentError := by
        unfold Mem.validateAccess
        rw [if_neg (by simp [hvs]), if_pos ⟨hlt, hmod⟩]
      unfold Mem.asWrite
      rw [hval]
      rfl

/-- Witness for C8 at the spec's S1 scenario: load the 4-byte MSP prefix;
the word read back at the flash base is 0x20001000; writes, both direct and
through the address space, raise the access error. -/
theorem flash_read_only_spec_witness :
    Mem.flashWrite Fix.stmSpace.flash 0x08000000 4 0 = .error .accessError ∧
    Mem.flashLoadImage Fix.stmSpace.flash Fix.img0 = .ok Fix.loadedFlash ∧
    Mem.flashRead Fix.loadedFlash 0x08000000 4 = .ok 0x20001000 ∧
    Mem.asWrite Fix.stmSpace Fix.stmOps 0x08000000 4 0 = .error .accessError := by
  have h := flash_read_only_spec Fix.stmSpace.flash 0x08000000 4 0 Fix.img0
  refine ⟨h.1, by rfl, ?_, ?_⟩
  · have h3 := (h.2.2.1 (by decide) Fix.loadedFlash (by rfl)).2
      (by decide) (by decide)
    exact h3.trans (by rfl)
  · exact (h.2.2.2 Stm32.State Fix.stmSpace Fix.stmOps rfl (by rfl) (by decide)).1
      (by decide) (by norm_num)

/-! ## C7 — debug write_mem into flash -/

/-- C7 (code bug): `DebugSession.write_memory` for a flash-resident address
calls `flash.program(address, data)`, but `FlashMemory` in
`simulator/core/address_space.py` defines no `program` method, so Python
raises `AttributeError` at that call, before the flash image or the engine
is touched; the `write_mem` command therefore reports an error instead of
programming the flash. -/
theorem write_memory_flash_attribute_error {π : Type} (sp : Mem.ASpace π)
    (ops : Mem.PeriphOps π) (address : Nat) (data : List Nat)
    (hmm : sp.mmio.containsA address = false)
    (hfl : sp.flash.range.containsA address = true) :
    Mem.sessionWriteMemory sp ops address data = .error .attributeError := by
  unfold Mem.sessionWriteMemory
  rw [if_neg (by simp [hmm]), if_pos hfl]

/-- Witness for C7: a `write_mem` of one byte at the flash base. -/
theorem write_memory_flash_attribute_error_witness :
    Fix.stmSpace.mmio.containsA 0x08000000 = false ∧
    Fix.stmSpace.flash.range.containsA 0x08000000 = true ∧
    Mem.sessionWriteMemory Fix.stmSpace Fix.stmOps 0x08000000 [0xFF] =
      .error .attributeError :=
  ⟨by decide, by decide,
    write_memory_flash_attribute_error Fix.stmSpace Fix.stmOps 0x08000000 [0xFF]
      (by decide) (by decide)⟩

/-! ## C3 — bit-band aliases -/

/-- C3 counterexample: through the peripheral bit-band alias of bit 0 of the
STM32 BSRR register (a write-only register reading as 0), writing 1 succeeds
(it sets ODR bit 0 through the BSRR side effect), but reading the same alias
back returns 0, not 1 — the claim's write-then-read-back property fails for
bit-band targets inside the peripheral space. -/
theorem bitband_peripheral_readback_counterexample :
    Mem.asWrite Fix.stmSpace Fix.stmOps Fix.bsrrAliasAddr 4 1 =
      .ok { Fix.stmSpace with pstate := { odr := 1, externalInputs := none } } ∧
    Mem.asRead { Fix.stmSpace with pstate := { odr := 1, externalInputs := none } }
      Fix.stmOps Fix.bsrrAliasAddr 4 = .ok 0 ∧
    (0 : Nat) ≠ 1 := by
  refine ⟨by rfl, by rfl, by decide⟩

theorem leDecode_lt (k : Nat) : ∀ (m : Nat → Nat) (off : Nat),
    (∀ x, m x < 256) → Mem.leDecode m off k < 2 ^ (8 * k) := by
  induction k with
  | zero => intro m off _; simp [Mem.leDecode]
  | succ n ih =>
    intro m off hb
    unfold Mem.leDecode
    have h1 := hb off
    have h2 := ih m (off + 1) hb
    have : 2 ^ (8 * (n + 1)) = 256 * 2 ^ (8 * n) := by
      rw [Nat.mul_add, Nat.pow_add]
      ring
    omega

theorem leDecode_storeBytes : ∀ (k : Nat) (m : Nat → Nat) (off v : Nat),
    Mem.leDecode (Mem.storeBytes m off k v) off k = v % 2 ^ (8 * k) := by
  intro k
  induction k with
  | zero => intro m off v; simp [Mem.leDecode, Nat.mod_one]
  | succ n ih =>
    intro m off v
    unfold Mem.leDecode
    have hb0 : Mem.storeBytes m off (n + 1) v off = v % 256 := by
      unfold Mem.storeBytes
      rw [if_pos (by omega)]
      simp [Nat.and_one_is_mod]
      rw [show (255 : Nat) = 2 ^ 8 - 1 by norm_num,
        Nat.and_pow_two_sub_one_eq_mod]
    have hshift : Mem.leDecode (Mem.storeBytes m off (n + 1) v) (off + 1) n =
        Mem.leDecode (Mem.storeBytes m (off + 1) n (v >>> 8)) (off + 1) n := by
      apply leDecode_congr
      intro i hi
      unfold Mem.storeBytes
      rw [if_pos (by omega), if_pos (by omega)]
      have hsh : 8 * (off + 1 + i - off) = 8 + 8 * (off + 1 + i - (off + 1)) := by
        omega
      rw [hsh, Nat.shiftRight_add]
    rw [hb0, hshift, ih]
    rw [Nat.shiftRight_eq_div_pow]
    have h2 : 2 ^ (8 * (n + 1)) = 256 * 2 ^ (8 * n) := by
      rw [Nat.mul_add, Nat.pow_add]
      ring
    rw [h2, Nat.mod_mul]

theorem storeBytes_outside (m : Nat → Nat) (off size v x : Nat)
    (h : x < off ∨ off + size ≤ x) : Mem.storeBytes m off size v x = m x := by
  unfold Mem.storeBytes
  rw [if_neg (by omega)]

theorem shiftRight_and_one (x i : Nat) : (x >>> i) &&& 1 = (x.testBit i).toNat := by
  rw [Nat.and_one_is_mod, Nat.shiftRight_eq_div_pow, Nat.toNat_testBit]

theorem testBit_set_self (w i : Nat) : (w ||| 1 <<< i).testBit i = true := by
  simp [Nat.testBit_or, Nat.one_shiftLeft, Nat.testBit_two_pow_self]

theorem testBit_clear_self (w i : Nat) : (pyAndNot w (1 <<< i)).testBit i = false := by
  simp [testBit_pyAndNot, Nat.one_shiftLeft, Nat.testBit_two_pow_self]

theorem testBit_set_other (w i j : Nat) (h : j ≠ i) :
    (w ||| 1 <<< i).testBit j = w.testBit j := by
  simp [Nat.testBit_or, Nat.one_shiftLeft,
    Nat.testBit_two_pow_of_ne (fun he => h he.symm)]

theorem testBit_clear_other (w i j : Nat) (h : j ≠ i) :
    (pyAndNot w (1 <<< i)).testBit j = w.testBit j := by
  simp [testBit_pyAndNot, Nat.one_shiftLeft,
    Nat.testBit_two_pow_of_ne (fun he => h he.symm)]

/-- C3 amended: for every in-range bit-band alias address the translation
yields target offset `(off / 32) * 4` and bit index `(off % 32) / 4`, and
alias accesses of size other than 4 are rejected with an access error.  The
write-then-read-back and bit-locality properties hold when the region
targets RAM (`target_is_peripheral` false): after a 32-bit write of
`v ∈ {0,1}` at alias `a`, a 32-bit read at `a` returns `v`, bit `i` of the
32-bit word at target `t` equals `v`, and every other bit of that word is
unchanged.  For peripheral targets the read-modify-write goes through the
target register's semantics and read-back can fail (see the counterexample
over the write-only BSRR register). -/
theorem bitband_ram_rmw {π : Type} (sp : Mem.ASpace π) (ops : Mem.PeriphOps π)
    (bb : Mem.BBRegion) (a v t i w w' : Nat) (d' : Nat → Nat)
    (ht : t = bb.target.base + ((a - bb.range.base) / 32) * 4)
    (hi : i = ((a - bb.range.base) % 32) / 4)
    (hw : w = Mem.leDecode sp.sramData (t - sp.sramRange.base) 4)
    (hw' : w' = if v &&& 1 ≠ 0 then w ||| (1 <<< i) else pyAndNot w (1 <<< i))
    (hd : d' = Mem.storeBytes sp.sramData (t - sp.sramRange.base) 4 (w' &&& sizeMask 4))
    (hfind : sp.bitbands.find? (fun r => r.range.containsA a) = some bb)
    (hperiph : bb.targetIsPeripheral = false)
    (halign : a % 4 = 0)
    (hin : bb.range.containsA a = true)
    (htin : bb.target.containsA t = true)
    (hword : sp.sramRange.containsRange t 4 = true)
    (hbytes : ∀ x, sp.sramData x < 256)
    (hv : v < 2) :
    Mem.BBRegion.translate bb a = .ok (t, i) ∧
    (∀ size, size ≠ 4 →
      Mem.asWrite sp ops a size v = .error .accessError ∧
      Mem.asRead sp ops a size = .error .accessError) ∧
    Mem.asWrite sp ops a 4 v = .ok { sp with sramData := d' } ∧
    Mem.asRead { sp with sramData := d' } ops a 4 = .ok v ∧
    (Mem.leDecode d' (t - sp.sramRange.base) 4).testBit i = decide (v = 1) ∧
    (∀ j, j ≠ i →
      (Mem.leDecode d' (t - sp.sramRange.base) 4).testBit j = w.testBit j) := by
  have hilt : i < 32 := by subst hi; omega
  have hwlt : w < 2 ^ 32 := by
    subst hw
    have := leDecode_lt 4 sp.sramData (t - sp.sramRange.base) hbytes
    simpa using this
  have hw'lt : w' < 2 ^ 32 := by
    subst hw'
    by_cases hc : v &&& 1 ≠ 0
    · rw [if_pos hc]
      refine Nat.or_lt_two_pow hwlt ?_
      rw [Nat.one_shiftLeft]
      exact Nat.pow_lt_pow_right (by norm_num) hilt
    · rw [if_neg hc]
      exact lt_of_le_of_lt (pyAndNot_le _ _) hwlt
  have htr : Mem.BBRegion.translate bb a = .ok (t, i) := by
    unfold Mem.BBRegion.translate
    rw [if_neg (by simp [hin])]
    rw [if_neg (by simp [ht ▸ htin])]
    rw [← ht, ← hi]
  have hval4 : Mem.validateAccess a 4 = .ok () := by
    unfold Mem.validateAccess
    rw [if_neg (by simp [validSize]), if_neg (by rintro ⟨_, hc⟩; exact hc halign)]
  have hdec : Mem.leDecode d' (t - sp.sramRange.base) 4 = w' := by
    rw [hd, leDecode_storeBytes]
    rw [sizeMask_eq]
    rw [Nat.and_pow_two_sub_one_of_lt_two_pow hw'lt, Nat.mod_eq_of_lt hw'lt]
  have hreadram : Mem.ramRead sp.sramRange sp.sramData t 4 = .ok w := by
    unfold Mem.ramRead
    rw [if_neg (by simp [hword]), ← hw]
  have hwriteram : Mem.ramWrite sp.sramRange sp.sramData t 4 w' = .ok d' := by
    unfold Mem.ramWrite
    rw [if_neg (by simp [hword]), hd]
  have hbbw : Mem.bitbandWrite sp ops bb a v = .ok { sp with sramData := d' } := by
    unfold Mem.bitbandWrite
    rw [htr]
    show Except.bind (Except.ok (t, i)) _ = _
    simp only [Except.bind, hperiph, Bool.false_eq_true, if_false]
    rw [hreadram]
    show Except.bind (Except.ok w) _ = _
    simp only [Except.bind, hperiph, Bool.false_eq_true, if_false]
    rw [← hw', hwriteram]
    rfl
  have hv01 : v = 0 ∨ v = 1 := by omega
  have hbit : w'.testBit i = decide (v = 1) := by
    rcases hv01 with rfl | rfl
    · rw [hw']
      norm_num [testBit_clear_self]
    · rw [hw']
      norm_num [testBit_set_self]
  refine ⟨htr, ?_, ?_, ?_, ?_, ?_⟩
  · intro size hsz
    by_cases hvs : validSize size = true
    · have hsz12 : size = 1 ∨ size = 2 := by
        simp only [validSize, Bool.or_eq_true, beq_iff_eq] at hvs
        omega
      have hval : Mem.validateAccess a size = .ok () := by
        unfold Mem.validateAccess
        rw [if_neg (by simp [hvs]), if_neg (by rintro ⟨hh1, hh2⟩; rcases hsz12 with rfl | rfl <;> omega)]
      constructor
      · unfold Mem.asWrite
        rw [hval]
        show Except.bind (Except.ok ()) _ = _
        simp only [Except.bind, hfind]
        rw [if_pos hsz]
      · unfold Mem.asRead
        rw [hval]
        show Except.bind (Except.ok ()) _ = _
        simp only [Except.bind, hfind]
        rw [if_pos hsz]
    · have hvf : Mem.validateAccess a size = .error .accessError := by
        unfold Mem.validateAccess
        rw [if_pos (by simp [hvs])]
      constructor
      · unfold Mem.asWrite
        rw [hvf]
        rfl
      · unfold Mem.asRead
        rw [hvf]
        rfl
  · unfold Mem.asWrite
    rw [hval4]
    show Except.bind (Except.ok ()) _ = _
    simp only [Except.bind, hfind]
    rw [if_neg (by norm_num)]
    exact hbbw
  · unfold Mem.asRead
    rw [hval4]
    show Except.bind (Except.ok ()) _ = _
    simp only [Except.bind, hfind]
    rw [if_neg (by norm_num)]
    unfold Mem.bitbandRead
    rw [htr]
    show Except.bind (Except.ok (t, i)) _ = _
    simp only [Except.bind, hperiph, Bool.false_eq_true, if_false]
    have : Mem.ramRead sp.sramRange d' t 4 = .ok w' := by
      unfold Mem.ramRead
      rw [if_neg (by simp [hword]), hdec]
    rw [this]
    show Except.bind (Except.ok w') _ = _
    simp only [Except.bind]
    rw [shiftRight_and_one, hbit]
    rcases hv01 with rfl | rfl <;> norm_num <;> rfl
  · rw [hdec]
    exact hbit
  · intro j hj
    rw [hdec, hw']
    rcases hv01 with rfl | rfl
    · norm_num [testBit_clear_other _ _ _ hj]
    · norm_num [testBit_set_other _ _ _ hj]

/-- Witness for the amended C3 at the spec's S5 scenario: writing 1 through
the SRAM alias of bit 3 of the word at the SRAM base, then reading the alias
back, returns 1. -/
theorem bitband_ram_rmw_witness :
    Mem.BBRegion.translate
        { range := { base := 0x22000000, size := 0x2000000 }
          target := { base := 0x20000000, size := 0x1000 }
          targetIsPeripheral := false } 0x2200000C = .ok (0x20000000, 3) ∧
    Mem.asRead { Fix.stmSpace with sramData := Mem.storeBytes Fix.stmSpace.sramData 0 4 (8 &&& sizeMask 4) } Fix.stmOps 0x2200000C 4 = .ok 1 := by
  have h := bitband_ram_rmw Fix.stmSpace Fix.stmOps
    { range := { base := 0x22000000, size := 0x2000000 }
      target := { base := 0x20000000, size := 0x1000 }
      targetIsPeripheral := false }
    0x2200000C 1 0x20000000 3 0 8
    (Mem.storeBytes Fix.stmSpace.sramData 0 4 (8 &&& sizeMask 4))
    (by rfl) (by rfl) (by rfl) (by rfl) (by rfl)
    (by rfl) (by rfl) (by rfl) (by rfl) (by rfl) (by rfl)
    (fun x => by show (0 : Nat) < 256; norm_num) (by decide)
  exact ⟨h.1, h.2.2.2.1⟩
